import Mathlib

/-!
Verification of the av repository (agent-version monitor) against its
natural-language specification.  The Go source is shallowly embedded:
pure helpers become Lean functions, the external collaborators (the ps
listing, the tmux send-keys channel, the per-pid version resolution) are
passed in as explicit parameters, and Go machine ints are modelled as
Int (no overflow is reachable for the quantities involved: pids and
version components).
-/

namespace AV

/-! ## Version comparator (internal/version/version.go) -/

/-- Value of a list of decimal digit characters, most significant first. -/
def digitsVal (ds : List Char) : Nat :=
  ds.foldl (fun n c => 10 * n + (c.toNat - 48)) 0

/-- Model of Go fmt.Sscanf with a %d verb applied to one string, with the
target variable initialised to 0: leading whitespace is skipped, an
optional sign and a maximal run of digits is read; if no digit is found
the scan fails and the variable keeps its zero value. -/
def sscanfInt (s : String) : Int :=
  let cs := s.data.dropWhile Char.isWhitespace
  match cs with
  | '-' :: rest =>
    let ds := rest.takeWhile Char.isDigit
    if ds.isEmpty then 0 else -(Int.ofNat (digitsVal ds))
  | '+' :: rest =>
    let ds := rest.takeWhile Char.isDigit
    if ds.isEmpty then 0 else Int.ofNat (digitsVal ds)
  | _ =>
    let ds := cs.takeWhile Char.isDigit
    if ds.isEmpty then 0 else Int.ofNat (digitsVal ds)

/-- Helper for splitOnDot: accumulates the current component in reverse. -/
def splitDotAux : List Char → List Char → List String
  | [], acc => [String.mk acc.reverse]
  | c :: rest, acc =>
    if c = '.' then String.mk acc.reverse :: splitDotAux rest []
    else splitDotAux rest (c :: acc)

/-- Model of Go strings.Split(s, "."): n separators yield n+1 pieces,
the empty string yields one empty piece. -/
def splitOnDot (s : String) : List String :=
  splitDotAux s.data []

/-- The numeric components of a version string: Split on dots, each
component scanned with Sscanf %d (version.go, Compare, loop body). -/
def components (s : String) : List Int :=
  (splitOnDot s).map sscanfInt

/-- The loop plus length tie-break of version.go Compare: compare
componentwise over the common length, then by component count. -/
def cmpLists : List Int → List Int → Int
  | [], [] => 0
  | [], _ :: _ => -1
  | _ :: _, [] => 1
  | x :: xs, y :: ys => if x < y then -1 else if y < x then 1 else cmpLists xs ys

/-- version.go Compare: returns -1 if a < b, 0 if a == b, 1 if a > b. -/
def Compare (a b : String) : Int :=
  if a = b then 0
  else if a = "" then -1
  else if b = "" then 1
  else cmpLists (components a) (components b)

example : Compare "2.9" "2.10" = -1 := by decide
example : Compare "" "1.0.0" = -1 := by decide
example : Compare "1.2" "1.2.3" = -1 := by decide
example : Compare "1.x" "1.0" = 0 := by decide
example : components "1.x.3" = [1, 0, 3] := by decide

lemma cmpLists_self : ∀ xs : List Int, cmpLists xs xs = 0 := by
  intro xs
  induction xs with
  | nil => rfl
  | cons x xs ih => simp [cmpLists, ih]

lemma cmpLists_antisymm : ∀ xs ys : List Int, cmpLists xs ys = -cmpLists ys xs := by
  intro xs
  induction xs with
  | nil => intro ys; cases ys <;> simp [cmpLists]
  | cons x xs ih =>
    intro ys
    cases ys with
    | nil => simp [cmpLists]
    | cons y ys =>
      simp only [cmpLists]
      rcases lt_trichotomy x y with h | h | h
      · rw [if_pos h, if_neg (not_lt.mpr h.le), if_pos h]
      · subst h
        simp [lt_irrefl, ih]
      · rw [if_neg (not_lt.mpr h.le), if_pos h, if_pos h]
        norm_num

lemma cmpLists_trans : ∀ xs ys zs : List Int,
    cmpLists xs ys = -1 → cmpLists ys zs = -1 → cmpLists xs zs = -1 := by
  intro xs
  induction xs with
  | nil =>
    intro ys zs h1 h2
    cases ys with
    | nil => simp [cmpLists] at h1
    | cons y ys =>
      cases zs with
      | nil => simp [cmpLists] at h2
      | cons z zs => simp [cmpLists]
  | cons x xs ih =>
    intro ys zs h1 h2
    cases ys with
    | nil => simp [cmpLists] at h1
    | cons y ys =>
      cases zs with
      | nil => simp [cmpLists] at h2
      | cons z zs =>
        simp only [cmpLists] at h1 h2 ⊢
        by_cases hxy : x < y
        · by_cases hyz : y < z
          · rw [if_pos (hxy.trans hyz)]
          · rw [if_neg hyz] at h2
            by_cases hzy : z < y
            · rw [if_pos hzy] at h2; omega
            · have hyz' : y = z := le_antisymm (not_lt.mp hzy) (not_lt.mp hyz)
              rw [if_pos (hyz' ▸ hxy)]
        · rw [if_neg hxy] at h1
          by_cases hyx : y < x
          · rw [if_pos hyx] at h1; omega
          · have hxy' : x = y := le_antisymm (not_lt.mp hyx) (not_lt.mp hxy)
            rw [if_neg hyx] at h1
            by_cases hyz : y < z
            · rw [if_pos (hxy' ▸ hyz)]
            · rw [if_neg hyz] at h2
              by_cases hzy : z < y
              · rw [if_pos hzy] at h2; omega
              · have hyz' : y = z := le_antisymm (not_lt.mp hzy) (not_lt.mp hyz)
                rw [if_neg hzy] at h2
                have hxz : ¬x < z := by rw [hxy', hyz']; exact lt_irrefl z
                have hzx : ¬z < x := by rw [hxy', hyz']; exact lt_irrefl z
                rw [if_neg hxz, if_neg hzx]
                exact ih ys zs h1 h2

lemma cmpLists_length_lt {xs ys : List Int} (h : xs.length < ys.length)
    (hpre : xs = ys.take xs.length) : cmpLists xs ys = -1 := by
  induction xs generalizing ys with
  | nil =>
    cases ys with
    | nil => simp at h
    | cons y ys => simp [cmpLists]
  | cons x xs ih =>
    cases ys with
    | nil => simp at h
    | cons y ys =>
      simp only [List.length_cons, List.take_succ_cons, List.cons.injEq] at h hpre
      obtain ⟨hx, hxs⟩ := hpre
      subst hx
      simp only [cmpLists, lt_irrefl, if_false]
      exact ih (by omega) hxs

/-- Compare reduced to the componentwise kernel when neither side is
the empty string. -/
lemma compare_eq_cmpLists {a b : String} (ha : a ≠ "") (hb : b ≠ "") :
    Compare a b = cmpLists (components a) (components b) := by
  unfold Compare
  by_cases hab : a = b
  · subst hab; rw [if_pos rfl, cmpLists_self]
  · rw [if_neg hab, if_neg ha, if_neg hb]

lemma compare_antisymm (a b : String) : Compare a b = -Compare b a := by
  unfold Compare
  by_cases hab : a = b
  · subst hab; simp
  · have hba : ¬(b = a) := fun h => hab h.symm
    by_cases ha : a = ""
    · subst ha
      simp [hab, hba]
    · by_cases hb : b = ""
      · subst hb
        simp [hab, hba, ha]
      · simp only [if_neg hab, if_neg hba, if_neg ha, if_neg hb]
        exact cmpLists_antisymm (components a) (components b)

lemma compare_trans {a b c : String}
    (h1 : Compare a b = -1) (h2 : Compare b c = -1) : Compare a c = -1 := by
  by_cases hab : a = b
  · subst hab; simp [Compare] at h1
  by_cases hbc : b = c
  · subst hbc; simp [Compare] at h2
  have hb : b ≠ "" := by
    intro hb
    by_cases ha : a = ""
    · exact hab (ha.trans hb.symm)
    · simp [Compare, hab, ha, hb] at h1
  have hc : c ≠ "" := by
    intro hc
    simp [Compare, hbc, hb, hc] at h2
  by_cases ha : a = ""
  · subst ha
    have hca : ¬(("" : String) = c) := fun h => hc h.symm
    simp [Compare, hca]
  · rw [compare_eq_cmpLists ha hb] at h1
    rw [compare_eq_cmpLists hb hc] at h2
    rw [compare_eq_cmpLists ha hc]
    exact cmpLists_trans _ _ _ h1 h2

/-- C6: For all version strings a, b, c (in particular all dotted-numeric
ones), Compare is reflexive (Compare a a = 0), antisymmetric
(Compare a b = -Compare b a) and transitive on strict comparisons
(Compare a b = -1 and Compare b c = -1 imply Compare a c = -1). -/
theorem c6_compare_laws (a b c : String) :
    Compare a a = 0 ∧
    Compare a b = -Compare b a ∧
    (Compare a b = -1 → Compare b c = -1 → Compare a c = -1) :=
  ⟨by simp [Compare], compare_antisymm a b, fun h1 h2 => compare_trans h1 h2⟩

theorem c6_compare_laws_witness :
    Compare "1.2.3" "1.2.3" = 0 ∧
    Compare "2.9" "2.10" = -(Compare "2.10" "2.9") ∧
    Compare "1.0" "3.0" = -1 :=
  ⟨(c6_compare_laws "1.2.3" "2.9" "1.0").1,
   (c6_compare_laws "2.9" "2.10" "1.0").2.1,
   (c6_compare_laws "1.0" "2.0" "3.0").2.2 (by decide) (by decide)⟩

/-- C2: Compare orders version strings componentwise numerically over the
dot-separated components ("2.9" is below "2.10"), ranks the empty string
below any non-empty string, ranks the longer string greater when all
leading components are numerically equal, and parses non-numeric
components as zero without failing. -/
theorem c2_compare_spec (a b e : String) (ha : a ≠ "") (hb : b ≠ "") (he : e ≠ "")
    (hlen : (components a).length < (components b).length)
    (hpre : components a = (components b).take (components a).length) :
    Compare "2.9" "2.10" = -1 ∧
    (Compare "" e = -1 ∧ Compare e "" = 1) ∧
    (∀ x y : String, x ≠ "" → y ≠ "" →
      Compare x y = cmpLists (components x) (components y)) ∧
    (Compare a b = -1 ∧ Compare b a = 1) ∧
    (components "1.x.3" = [1, 0, 3] ∧ Compare "1.x" "1.0" = 0) := by
  have hab : a ≠ b := by
    intro h
    rw [h] at hlen
    exact lt_irrefl _ hlen
  have hlt : Compare a b = -1 := by
    rw [compare_eq_cmpLists ha hb]
    exact cmpLists_length_lt hlen hpre
  refine ⟨by decide, ⟨?_, ?_⟩, fun x y hx hy => compare_eq_cmpLists hx hy,
    ⟨hlt, ?_⟩, by decide, by decide⟩
  · unfold Compare
    rw [if_neg fun h => he h.symm, if_pos rfl]
  · unfold Compare
    rw [if_neg he, if_neg he, if_pos rfl]
  · have h := compare_antisymm b a
    rw [hlt] at h
    omega

theorem c2_compare_spec_witness :
    Compare "1.2" "1.2.3" = -1 ∧ Compare "1.2.3" "1.2" = 1 ∧ Compare "" "1" = -1 :=
  have h := c2_compare_spec "1.2" "1.2.3" "1" (by decide) (by decide) (by decide)
    (by decide) (by decide)
  ⟨h.2.2.2.1.1, h.2.2.2.1.2, h.2.1.1⟩

/-! ## Session data model (internal/process) -/

/-- One observed running agent session (internal/process, type Session). -/
structure Session where
  PID : Int
  Agent : String
  TTY : String
  RunningVersion : String
  Command : String
  TmuxSession : String
  WorkingDir : String
  HasActiveWork : Bool
deriving DecidableEq, Repr

/-! ## Interactive picker (internal/tui/picker.go) -/

/-- One row of the picker (picker.go, type SessionItem).  The Go field
Session is a pointer; the embedding stores the session by value. -/
structure SessionItem where
  Session : Session
  Selected : Bool
  CurrentVersion : String
  Disabled : Bool
deriving DecidableEq, Repr

/-- The bubbletea model for the session picker (picker.go, PickerModel). -/
structure PickerModel where
  items : List SessionItem
  cursor : Nat
  submitted : Bool
  cancelled : Bool
  newVersion : String
deriving DecidableEq, Repr

/-- The installed version an agent kind is compared against
(picker.go NewPicker and the analogous branch of the restart command). -/
def currentVersionFor (installedClaude installedCodex : String) (s : Session) : String :=
  if s.Agent = "codex" then installedCodex else installedClaude

/-- The inclusion test of picker.go NewPicker ("Only include sessions
that need restart"). -/
def restartEligible (installedClaude installedCodex : String) (s : Session) : Bool :=
  s.RunningVersion ≠ "" ∧
    s.RunningVersion ≠ currentVersionFor installedClaude installedCodex s ∧
    s.TmuxSession ≠ ""

/-- The item constructed for an eligible session in NewPicker. -/
def mkItem (installedClaude installedCodex : String) (s : Session) : Option SessionItem :=
  if restartEligible installedClaude installedCodex s then
    some { Session := s, Selected := !s.HasActiveWork,
           CurrentVersion := currentVersionFor installedClaude installedCodex s,
           Disabled := s.HasActiveWork }
  else none

/-- picker.go NewPicker: builds the item list by one pass over the
sessions, appending an item for each eligible session; the remaining
model fields take their Go zero values, newVersion the installed Claude
version. -/
def NewPicker (sessions : List Session) (installedClaude installedCodex : String) :
    PickerModel :=
  { items := sessions.filterMap (mkItem installedClaude installedCodex),
    cursor := 0, submitted := false, cancelled := false,
    newVersion := installedClaude }

/-- picker.go Update restricted to key messages: the per-key transition
on the model.  The cursor never leaves the valid range (the Go guards
cursor > 0 and cursor < len-1 are reproduced exactly, with the toggle
branch reading the item under the cursor). -/
def update (m : PickerModel) (key : String) : PickerModel :=
  if key = "ctrl+c" ∨ key = "q" then { m with cancelled := true }
  else if key = "enter" then { m with submitted := true }
  else if key = "up" ∨ key = "k" then
    if m.cursor > 0 then { m with cursor := m.cursor - 1 } else m
  else if key = "down" ∨ key = "j" then
    if m.cursor < m.items.length - 1 then { m with cursor := m.cursor + 1 } else m
  else if key = " " ∨ key = "x" then
    match m.items.get? m.cursor with
    | some it =>
      if it.Disabled then m
      else { m with items := m.items.set m.cursor { it with Selected := !it.Selected } }
    | none => m
  else if key = "a" then
    { m with items := m.items.map fun it =>
        if it.Disabled then it else { it with Selected := true } }
  else if key = "n" then
    { m with items := m.items.map fun it => { it with Selected := false } }
  else m

/-- A whole key-event history applied to a model. -/
def applyKeys (m : PickerModel) (keys : List String) : PickerModel :=
  keys.foldl update m

/-- picker.go Cancelled. -/
def Cancelled (m : PickerModel) : Bool := m.cancelled

/-- picker.go SelectedSessions: one pass over the items appending the
session of every selected item. -/
def SelectedSessions (m : PickerModel) : List Session :=
  m.items.foldl (fun acc it => if it.Selected then acc ++ [it.Session] else acc) []

/-- C4: the pickable set built by NewPicker is exactly the sessions with
a non-empty running version differing from the installed version of
their agent kind and a non-empty tmux session name, in input order;
detection-only (no tmux) and current or unknown-version sessions never
yield an item. -/
theorem c4_picker_items (sessions : List Session) (installedClaude installedCodex : String) :
    (NewPicker sessions installedClaude installedCodex).items.map (fun it => it.Session) =
      sessions.filter (restartEligible installedClaude installedCodex) := by
  induction sessions with
  | nil => rfl
  | cons s rest ih =>
    simp only [NewPicker, List.filterMap_cons, List.filter_cons] at *
    by_cases h : restartEligible installedClaude installedCodex s = true
    · simp [mkItem, h, ih]
    · simp [mkItem, h, ih, Bool.not_eq_true] at *

/-- C9: in the model returned by NewPicker, before any event, every
item is selected exactly when it is not disabled: non-disabled items
start selected and disabled items start deselected. -/
theorem c9_default_selection (sessions : List Session) (installedClaude installedCodex : String) :
    ((NewPicker sessions installedClaude installedCodex).items.all
      (fun it => it.Selected == !it.Disabled)) = true := by
  rw [List.all_eq_true]
  intro it hit
  simp only [NewPicker, List.mem_filterMap] at hit
  obtain ⟨s, _, hs⟩ := hit
  unfold mkItem at hs
  split at hs
  · cases hs
    simp
  · cases hs

/-- The safety invariant of the picker: no disabled item is selected. -/
def itemsOK (items : List SessionItem) : Prop :=
  ∀ it ∈ items, it.Disabled = true → it.Selected = false

lemma mem_set_cases {α : Type} :
    ∀ (l : List α) (n : Nat) (b a : α), a ∈ l.set n b → a ∈ l ∨ a = b := by
  intro l
  induction l with
  | nil => intro n b a h; simp [List.set] at h
  | cons x xs ih =>
    intro n b a h
    cases n with
    | zero =>
      simp only [List.set] at h
      rcases List.mem_cons.mp h with h | h
      · right; exact h
      · left; exact List.mem_cons_of_mem _ h
    | succ n =>
      simp only [List.set] at h
      rcases List.mem_cons.mp h with h | h
      · left; exact h ▸ List.mem_cons_self _ _
      · rcases ih n b a h with h | h
        · left; exact List.mem_cons_of_mem _ h
        · right; exact h

lemma newPicker_itemsOK (sessions : List Session) (ic ix : String) :
    itemsOK (NewPicker sessions ic ix).items := by
  intro it hit hdis
  simp only [NewPicker, List.mem_filterMap] at hit
  obtain ⟨s, _, hs⟩ := hit
  unfold mkItem at hs
  split at hs
  · cases hs
    simp only at hdis
    simp [hdis]
  · cases hs

lemma update_itemsOK {m : PickerModel} (key : String) (h : itemsOK m.items) :
    itemsOK (update m key).items := by
  unfold update
  split
  · exact h
  split
  · exact h
  split
  · split <;> exact h
  split
  · split <;> exact h
  split
  · cases hget : m.items.get? m.cursor with
    | none => simp only [hget]; exact h
    | some it =>
      simp only [hget]
      by_cases hdis : it.Disabled
      · simp only [if_pos hdis]; exact h
      · simp only [if_neg hdis]
        intro it' hit' hdis'
        rcases mem_set_cases _ _ _ _ hit' with hmem | heq
        · exact h it' hmem hdis'
        · subst heq
          simp only at hdis'
          exact absurd hdis' hdis
  split
  · intro it' hit' hdis'
    simp only [List.mem_map] at hit'
    obtain ⟨it, hit, heq⟩ := hit'
    by_cases hdis : it.Disabled
    · rw [if_pos hdis] at heq
      subst heq
      exact h it hit hdis'
    · rw [if_neg hdis] at heq
      subst heq
      simp only at hdis'
      exact absurd hdis' hdis
  split
  · intro it' hit' hdis'
    simp only [List.mem_map] at hit'
    obtain ⟨it, _, heq⟩ := hit'
    subst heq
    rfl
  · exact h

lemma applyKeys_itemsOK {m : PickerModel} (keys : List String) (h : itemsOK m.items) :
    itemsOK (applyKeys m keys).items := by
  induction keys generalizing m with
  | nil => exact h
  | cons k ks ih => exact ih (update_itemsOK k h)

/-- C5: whatever key events are applied to a freshly constructed picker,
a disabled (busy) item is never selected: toggling is a no-op on a
disabled item and select-all skips disabled items. -/
theorem c5_disabled_never_selected (sessions : List Session) (ic ix : String)
    (keys : List String) (it : SessionItem)
    (hit : it ∈ (applyKeys (NewPicker sessions ic ix) keys).items)
    (hdis : it.Disabled = true) : it.Selected = false :=
  applyKeys_itemsOK keys (newPicker_itemsOK sessions ic ix) it hit hdis

/-- A busy, outdated, tmux-attached session (used as concrete input). -/
def sActive : Session :=
  { PID := 271, Agent := "claude", TTY := "ttys002", RunningVersion := "2.1.11",
    Command := "claude", TmuxSession := "work", WorkingDir := "/tmp/w",
    HasActiveWork := true }

/-- The picker item sActive gives rise to. -/
def sActiveItem : SessionItem :=
  { Session := sActive, Selected := false, CurrentVersion := "2.1.14", Disabled := true }

theorem c5_disabled_never_selected_witness : sActiveItem.Selected = false :=
  c5_disabled_never_selected [sActive] "2.1.14" "0.44.0" ["a", " ", "x", "n", "a"]
    sActiveItem (by decide) (by decide)

/-- C10: SelectedSessions returns exactly the sessions of the items with
Selected true, in item order, and reads nothing but the item list: the
submitted and cancelled flags do not influence it, and Cancelled merely
reports the cancelled flag, so zero-restarts-on-cancel is up to the
caller. -/
theorem c10_selected_sessions (items : List SessionItem) (cursor : Nat)
    (submitted cancelled : Bool) (nv : String) :
    SelectedSessions ⟨items, cursor, submitted, cancelled, nv⟩ =
      (items.filter (fun it => it.Selected)).map (fun it => it.Session) ∧
    Cancelled ⟨items, cursor, submitted, cancelled, nv⟩ = cancelled := by
  constructor
  · show items.foldl (fun acc it => if it.Selected then acc ++ [it.Session] else acc) [] = _
    have key : ∀ (l : List SessionItem) (acc : List Session),
        l.foldl (fun acc it => if it.Selected then acc ++ [it.Session] else acc) acc =
          acc ++ (l.filter (fun it => it.Selected)).map (fun it => it.Session) := by
      intro l
      induction l with
      | nil => intro acc; simp
      | cons it rest ih =>
        intro acc
        simp only [List.foldl_cons, List.filter_cons]
        by_cases h : it.Selected
        · simp [h, ih]
        · simp only [Bool.not_eq_true] at h
          simp [h, ih]
    simpa using key items []
  · rfl

/-! ## Restart subcommand (cmd/av, newRestartCmd) and status view
(internal/output, PrintSessions) -/

/-- The selection loop of newRestartCmd: sessions with no tmux name are
skipped; the rest are queued when the all flag is set or the running
version differs from the installed version of the agent kind. -/
def toRestart (all : Bool) (installedClaude installedCodex : String)
    (sessions : List Session) : List Session :=
  sessions.filter fun s =>
    s.TmuxSession ≠ "" ∧
      (all = true ∨ s.RunningVersion ≠ currentVersionFor installedClaude installedCodex s)

/-- The restart loop of newRestartCmd: every queued session gets one
RestartSession attempt whose outcome (none for success, an error message
otherwise) is supplied by the driver oracle; a failure produces a
warning for that session and the loop moves on unconditionally. -/
def restartLoop (driver : Session → Option String) (queued : List Session) :
    List (Session × Option String) :=
  queued.map fun s => (s, driver s)

/-- Whether one session adds to the needs-restart count in
output.go PrintSessions: displayed version (question mark when empty)
equal to the installed one means current, a question mark means unknown,
anything else counts. -/
def countsAsNeedsRestart (installedClaude installedCodex : String) (s : Session) : Bool :=
  let version := if s.RunningVersion = "" then "?" else s.RunningVersion
  let current := currentVersionFor installedClaude installedCodex s
  if version = current then false
  else if version = "?" then false
  else true

/-- The loop body of the needs-restart count of output.go PrintSessions. -/
def countStep (installedClaude installedCodex : String) (n : Nat) (s : Session) : Nat :=
  let version := if s.RunningVersion = "" then "?" else s.RunningVersion
  let current := currentVersionFor installedClaude installedCodex s
  if version = current then n
  else if version = "?" then n
  else n + 1

/-- The needs-restart total of output.go PrintSessions (its early return
on an empty list coincides with the fold over the empty list). -/
def needsRestartCount (sessions : List Session) (installedClaude installedCodex : String) :
    Nat :=
  sessions.foldl (countStep installedClaude installedCodex) 0

lemma countStep_eq (ic ix : String) (n : Nat) (s : Session) :
    countStep ic ix n s = n + (if countsAsNeedsRestart ic ix s then 1 else 0) := by
  simp only [countStep, countsAsNeedsRestart]
  split_ifs <;> simp_all

lemma needsRestartCount_eq_countP (sessions : List Session) (ic ix : String) :
    needsRestartCount sessions ic ix = sessions.countP (countsAsNeedsRestart ic ix) := by
  have key : ∀ (l : List Session) (n : Nat),
      l.foldl (countStep ic ix) n = n + l.countP (countsAsNeedsRestart ic ix) := by
    intro l
    induction l with
    | nil => intro n; simp
    | cons s rest ih =>
      intro n
      rw [List.foldl_cons, countStep_eq, ih, List.countP_cons]
      ring
  have h := key sessions 0
  rw [Nat.zero_add] at h
  exact h

/-- A session with empty running version, a tmux name, and a non-empty
installed version for its agent (used as concrete input). -/
def sUnknown : Session :=
  { PID := 314, Agent := "claude", TTY := "ttys001", RunningVersion := "",
    Command := "claude", TmuxSession := "proj", WorkingDir := "/tmp/p",
    HasActiveWork := false }

/-- C3, counterexample: a session with empty runningVersion has status
UNKNOWN and is not counted in the needs-restart total, yet the restart
subcommand without the all flag queues it and invokes the driver on it
(the restart filter uses raw version inequality, not the UNKNOWN
status), refuting the claim that such a session is not restarted. -/
theorem c3_counterexample :
    sUnknown.RunningVersion = "" ∧
    needsRestartCount [sUnknown] "2.1.14" "0.44.0" = 0 ∧
    toRestart false "2.1.14" "0.44.0" [sUnknown] = [sUnknown] ∧
    (restartLoop (fun _ => none) (toRestart false "2.1.14" "0.44.0" [sUnknown])).map
      Prod.fst = [sUnknown] := by
  refine ⟨rfl, rfl, ?_, ?_⟩ <;> decide

/-- C3 as amended: a session whose runningVersion is empty has status
UNKNOWN and is excluded from the needs-restart total of the status view;
however the restart subcommand without the all flag does restart it
whenever the installed version of its agent kind is non-empty (it is
skipped only when that installed version is itself empty). -/
theorem c3_amended (sessions : List Session) (ic ix : String) (s : Session)
    (hs : s ∈ sessions) (hempty : s.RunningVersion = "")
    (htmux : s.TmuxSession ≠ "") (hinst : currentVersionFor ic ix s ≠ "") :
    needsRestartCount sessions ic ix = sessions.countP (countsAsNeedsRestart ic ix) ∧
    countsAsNeedsRestart ic ix s = false ∧
    s ∈ toRestart false ic ix sessions := by
  refine ⟨needsRestartCount_eq_countP sessions ic ix, ?_, ?_⟩
  · unfold countsAsNeedsRestart
    by_cases h1 : (if s.RunningVersion = "" then "?" else s.RunningVersion) =
        currentVersionFor ic ix s
    · simp [h1]
    · simp [h1, hempty]
  · unfold toRestart
    rw [List.mem_filter]
    refine ⟨hs, ?_⟩
    have : s.RunningVersion ≠ currentVersionFor ic ix s := by
      rw [hempty]
      exact fun h => hinst h.symm
    simp [htmux, this]

theorem c3_amended_witness :
    needsRestartCount [sUnknown] "2.1.14" "0.44.0" =
      List.countP (countsAsNeedsRestart "2.1.14" "0.44.0") [sUnknown] ∧
    countsAsNeedsRestart "2.1.14" "0.44.0" sUnknown = false ∧
    sUnknown ∈ toRestart false "2.1.14" "0.44.0" [sUnknown] :=
  c3_amended [sUnknown] "2.1.14" "0.44.0" sUnknown (by decide) (by decide)
    (by decide) (by decide)

/-- C1, counterexample: a session classified active (HasActiveWork true)
with a tmux name and an outdated version is queued by the restart
subcommand both without and with the all flag, and the driver is
invoked on it: active sessions are not excluded. -/
theorem c1_counterexample :
    sActive.HasActiveWork = true ∧
    toRestart false "2.1.14" "0.44.0" [sActive] = [sActive] ∧
    toRestart true "2.1.14" "0.44.0" [sActive] = [sActive] ∧
    (restartLoop (fun _ => none) (toRestart false "2.1.14" "0.44.0" [sActive])).map
      Prod.fst = [sActive] := by
  refine ⟨rfl, ?_, ?_, ?_⟩ <;> decide

/-- C1 as amended: the set of sessions the restart subcommand restarts
is characterised by tmux attachment and (without the all flag) version
mismatch alone; detection-only sessions are excluded, but HasActiveWork
plays no role, so active sessions with a tmux name are restarted too. -/
theorem c1_amended (all : Bool) (ic ix : String) (sessions : List Session) (s : Session) :
    s ∈ toRestart all ic ix sessions ↔
      s ∈ sessions ∧ s.TmuxSession ≠ "" ∧
        (all = true ∨ s.RunningVersion ≠ currentVersionFor ic ix s) := by
  unfold toRestart
  rw [List.mem_filter]
  simp

theorem c1_amended_witness : sActive ∈ toRestart false "2.1.14" "0.44.0" [sActive] :=
  (c1_amended false "2.1.14" "0.44.0" [sActive] sActive).mpr
    ⟨by decide, by decide, Or.inr (by decide)⟩

/-! ## Restart driver (internal/tmux, RestartSession) -/

/-- Sends the listed keystrokes one after the other through the send
oracle (the n-th send attempt of the whole RestartSession run succeeds
iff the oracle is true at n).  Returns the keystrokes actually sent (the
failing one included) and the error of the first failing send, if any;
nothing after a failing send is attempted. -/
def sendSeq (send : Nat → Bool) : Nat → List String → List String × Option String
  | _, [] => ([], none)
  | i, k :: ks =>
    if send i then
      let r := sendSeq send (i + 1) ks
      (k :: r.1, r.2)
    else ([k], some ("failed to send " ++ k))

/-- The resume command of tmux.go RestartSession for each agent kind. -/
def resumeCmd (agent : String) : Option String :=
  if agent = "claude" then some "claude --continue"
  else if agent = "codex" then some "codex --continue"
  else none

/-- tmux.go RestartSession (the feature-complete variant): three
interrupts, an input-line clear, exit plus submit, then the agent
resume command plus submit; each send is checked and the first failure
aborts the remaining steps with an error.  Sleeps are not modelled. -/
def RestartSession (send : Nat → Bool) (agent : String) : List String × Option String :=
  match sendSeq send 0 ["C-c", "C-c", "C-c", "C-u", "exit", "Enter"] with
  | (sent, some e) => (sent, some e)
  | (sent, none) =>
    match resumeCmd agent with
    | none => (sent, some "unknown agent")
    | some cmd =>
      let r := sendSeq send 6 [cmd, "Enter"]
      (sent ++ r.1, r.2)

/-- The full keystroke sequence of a successful restart. -/
def fullKeys (agent : String) : List String :=
  ["C-c", "C-c", "C-c", "C-u", "exit", "Enter"] ++
    (match resumeCmd agent with
     | some cmd => [cmd, "Enter"]
     | none => [])

lemma sendSeq_ok (send : Nat → Bool) :
    ∀ (ks : List String) (n : Nat), (∀ j, j < ks.length → send (n + j) = true) →
      sendSeq send n ks = (ks, none) := by
  intro ks
  induction ks with
  | nil => intro n _; rfl
  | cons k ks ih =>
    intro n h
    have h0 : send n = true := by simpa using h 0 (by simp)
    simp only [sendSeq, h0, if_true]
    rw [ih (n + 1) fun j hj => by
      have h2 := h (j + 1) (by simpa using Nat.succ_lt_succ hj)
      have e : n + (j + 1) = n + 1 + j := by omega
      rw [e] at h2
      exact h2]

lemma sendSeq_fail (send : Nat → Bool) :
    ∀ (ks : List String) (n d : Nat), d < ks.length →
      (∀ j, j < d → send (n + j) = true) → send (n + d) = false →
      sendSeq send n ks =
        (ks.take (d + 1), some ("failed to send " ++ ks.getD d "")) := by
  intro ks
  induction ks with
  | nil => intro n d hd; simp at hd
  | cons k ks ih =>
    intro n d hd hok hf
    cases d with
    | zero =>
      have h0 : send n = false := by simpa using hf
      simp [sendSeq, h0, List.getD]
    | succ d =>
      have h0 : send n = true := by simpa using hok 0 (Nat.succ_pos d)
      simp only [sendSeq, h0, if_true]
      rw [ih (n + 1) d (by simpa using Nat.lt_of_succ_lt_succ hd)
        (fun j hj => by
          have h2 := hok (j + 1) (Nat.succ_lt_succ hj)
          have e : n + (j + 1) = n + 1 + j := by omega
          rw [e] at h2
          exact h2)
        (by
          have e : n + (d + 1) = n + 1 + d := by omega
          rw [e] at hf
          exact hf)]
      simp [List.getD]

lemma restartSession_fail_pre (send : Nat → Bool) (agent : String) (i : Nat)
    (hi : i < 6) (hok : ∀ j, j < i → send j = true) (hfail : send i = false) :
    RestartSession send agent =
      ((["C-c", "C-c", "C-c", "C-u", "exit", "Enter"] : List String).take (i + 1),
        some ("failed to send " ++
          (["C-c", "C-c", "C-c", "C-u", "exit", "Enter"] : List String).getD i "")) := by
  have h := sendSeq_fail send ["C-c", "C-c", "C-c", "C-u", "exit", "Enter"] 0 i
    (by simpa using hi)
    (fun j hj => by rw [Nat.zero_add]; exact hok j (by omega))
    (by rw [Nat.zero_add]; exact hfail)
  unfold RestartSession
  rw [h]

lemma restartSession_fail_post (send : Nat → Bool) (agent cmd : String)
    (hcmd : resumeCmd agent = some cmd) (i : Nat) (h6 : 6 ≤ i) (hi : i < 8)
    (hok : ∀ j, j < i → send j = true) (hfail : send i = false) :
    RestartSession send agent =
      (["C-c", "C-c", "C-c", "C-u", "exit", "Enter"] ++
          ([cmd, "Enter"] : List String).take (i - 6 + 1),
        some ("failed to send " ++ ([cmd, "Enter"] : List String).getD (i - 6) "")) := by
  have h1 := sendSeq_ok send ["C-c", "C-c", "C-c", "C-u", "exit", "Enter"] 0
    (fun j hj => by
      rw [Nat.zero_add]
      exact hok j (by simp at hj; omega))
  have h2 := sendSeq_fail send [cmd, "Enter"] 6 (i - 6)
    (by simp; omega)
    (fun j hj => hok (6 + j) (by omega))
    (by
      have e : 6 + (i - 6) = i := by omega
      rw [e]
      exact hfail)
  unfold RestartSession
  rw [h1, hcmd]
  show (["C-c", "C-c", "C-c", "C-u", "exit", "Enter"] ++
      (sendSeq send 6 [cmd, "Enter"]).1, (sendSeq send 6 [cmd, "Enter"]).2) = _
  rw [h2]

/-- C7: if the send at position i is the first to fail, RestartSession
stops after that send (the keystrokes actually sent are exactly the
first i+1 of the full sequence) and returns the corresponding error;
and the restart loop of the restart subcommand still gives every queued
session its driver invocation, whatever the per-session outcomes are. -/
theorem c7_restart_failure (send : Nat → Bool) (agent : String) (i : Nat)
    (driver : Session → Option String) (queued : List Session)
    (hagent : agent = "claude" ∨ agent = "codex") (hi : i < 8)
    (hok : ∀ j, j < i → send j = true) (hfail : send i = false) :
    RestartSession send agent =
      ((fullKeys agent).take (i + 1),
        some ("failed to send " ++ (fullKeys agent).getD i "")) ∧
    ((RestartSession send agent).2.isSome = true) ∧
    (restartLoop driver queued).map Prod.fst = queued := by
  have hloop : ∀ l : List Session, (restartLoop driver l).map Prod.fst = l := by
    intro l
    induction l with
    | nil => rfl
    | cons s rest ih =>
      simp only [restartLoop, List.map_cons, List.map_map] at ih ⊢
      rw [ih]
  have hmain : RestartSession send agent =
      ((fullKeys agent).take (i + 1),
        some ("failed to send " ++ (fullKeys agent).getD i "")) := by
    by_cases h6 : i < 6
    · rw [restartSession_fail_pre send agent i h6 hok hfail]
      rcases hagent with h | h <;> subst h <;> interval_cases i <;> rfl
    · rcases hagent with h | h <;> subst h
      · rw [restartSession_fail_post send "claude" "claude --continue" rfl i
          (by omega) hi hok hfail]
        interval_cases i <;> rfl
      · rw [restartSession_fail_post send "codex" "codex --continue" rfl i
          (by omega) hi hok hfail]
        interval_cases i <;> rfl
  exact ⟨hmain, by rw [hmain]; rfl, hloop queued⟩

theorem c7_restart_failure_witness :
    RestartSession (fun j => j != 2) "claude" =
      (["C-c", "C-c", "C-c"], some "failed to send C-c") ∧
    ((RestartSession (fun j => j != 2) "claude").2.isSome = true) ∧
    (restartLoop (fun _ => some "boom") [sActive]).map Prod.fst = [sActive] := by
  have h := c7_restart_failure (fun j => j != 2) "claude" 2 (fun _ => some "boom")
    [sActive] (Or.inl rfl) (by decide) (fun j hj => by interval_cases j <;> decide)
    (by decide)
  refine ⟨?_, h.2.1, h.2.2⟩
  rw [h.1]
  decide

/-! ## Session locator (internal/process, findProcesses over the ps
listing).  The ps output is external: the embedding takes the list of
its lines as input, and resolves a running version per pid through an
oracle standing for findRunningVersion (itself built on external pgrep
and ps calls). -/

/-- Model of Go strings.TrimSpace. -/
def goTrim (s : String) : String :=
  String.mk (((s.data.dropWhile Char.isWhitespace).reverse.dropWhile
    Char.isWhitespace).reverse)

/-- Helper for goFields: splits a character list into maximal
whitespace-free words, accumulating the current word in reverse. -/
def wordsAux : List Char → List Char → List String
  | [], acc => if acc.isEmpty then [] else [String.mk acc.reverse]
  | c :: rest, acc =>
    if c.isWhitespace then
      if acc.isEmpty then wordsAux rest []
      else String.mk acc.reverse :: wordsAux rest []
    else wordsAux rest (c :: acc)

/-- Model of Go strings.Fields: the whitespace-separated words. -/
def goFields (s : String) : List String :=
  wordsAux s.data []

/-- Model of Go strings.Join(parts, " ") on a non-empty list. -/
def joinSpace : List String → String
  | [] => ""
  | [s] => s
  | s :: rest => s ++ " " ++ joinSpace rest

/-- One raw ps line surviving the filters of findProcesses. -/
structure Candidate where
  pid : Int
  tty : String
  cmd : String
deriving DecidableEq, Repr

/-- The per-line filtering of findProcesses (process.go): trim, skip
empty lines, need at least three fields, pid scanned with Sscanf %d,
the command re-joined from the remaining fields; skipped unless the
command's first token equals the agent launcher name exactly and the
tty is a real terminal. -/
def parseCandidate (agent : String) (line : String) : Option Candidate :=
  let line := goTrim line
  if line = "" then none
  else
    match goFields line with
    | f0 :: f1 :: f2 :: rest =>
      let pid := sscanfInt f0
      let tty := f1
      let command := joinSpace (f2 :: rest)
      match goFields command with
      | [] => none
      | c0 :: _ =>
        if c0 ≠ agent then none
        else if tty = "??" ∨ tty = "" then none
        else some { pid := pid, tty := tty, cmd := command }
    | _ => none

/-- The Session built from a surviving ps line, its running version
resolved from the child-process oracle. -/
def mkSession (resolve : Int → String) (agent : String) (c : Candidate) : Session :=
  { PID := c.pid, Agent := agent, TTY := c.tty, RunningVersion := resolve c.pid,
    Command := c.cmd, TmuxSession := "", WorkingDir := "", HasActiveWork := false }

/-- The scan loop of findProcesses with its seenTTYs set: a candidate
whose tty was already seen is dropped, otherwise it becomes a Session
and its tty is recorded. -/
def findLoop (agent : String) (resolve : Int → String) (seen : List String) :
    List String → List Session
  | [] => []
  | line :: rest =>
    match parseCandidate agent line with
    | none => findLoop agent resolve seen rest
    | some c =>
      if c.tty ∈ seen then findLoop agent resolve seen rest
      else mkSession resolve agent c :: findLoop agent resolve (c.tty :: seen) rest

/-- process.go findProcesses: the deduplicated sessions of one agent
kind, from the raw ps lines. -/
def findProcesses (agent : String) (lines : List String) (resolve : Int → String) :
    List Session :=
  findLoop agent resolve [] lines

/-- The candidates of a raw listing, in order, before deduplication. -/
def candidates (agent : String) (lines : List String) : List Candidate :=
  lines.filterMap (parseCandidate agent)

lemma findLoop_filter_tty (agent : String) (resolve : Int → String) (t : String) :
    ∀ (lines : List String) (seen : List String),
      (findLoop agent resolve seen lines).filter (fun s => s.TTY == t) =
        if t ∈ seen then []
        else ((((lines.filterMap (parseCandidate agent)).filter
            (fun c => c.tty == t)).head?).map (mkSession resolve agent)).toList := by
  intro lines
  induction lines with
  | nil => intro seen; simp [findLoop]
  | cons line rest ih =>
    intro seen
    cases hp : parseCandidate agent line with
    | none => simp only [findLoop, hp, List.filterMap_cons_none hp, ih seen]
    | some c =>
      by_cases hseen : c.tty ∈ seen
      · simp only [findLoop, hp, if_pos hseen, List.filterMap_cons_some hp, ih seen]
        by_cases ht : t ∈ seen
        · rw [if_pos ht, if_pos ht]
        · have hct : (c.tty == t) = false := by
            rw [beq_eq_false_iff_ne]
            intro h
            exact ht (h ▸ hseen)
          rw [if_neg ht, if_neg ht, List.filter_cons_of_neg (by simp [hct])]
      · simp only [findLoop, hp, if_neg hseen, List.filterMap_cons_some hp]
        by_cases hct : c.tty = t
        · have hbeq : (c.tty == t) = true := beq_iff_eq.mpr hct
          have htseen : t ∉ seen := fun h => hseen (hct ▸ h)
          rw [List.filter_cons_of_pos (by simp [mkSession, hbeq]),
            List.filter_cons_of_pos (by simp [hbeq]), ih (c.tty :: seen),
            if_pos (List.mem_cons.mpr (Or.inl hct.symm)), if_neg htseen]
          simp
        · have hbeq : (c.tty == t) = false := beq_eq_false_iff_ne.mpr hct
          rw [List.filter_cons_of_neg (by simp [mkSession, hbeq]),
            List.filter_cons_of_neg (by simp [hbeq]), ih (c.tty :: seen)]
          by_cases ht : t ∈ seen
          · rw [if_pos (List.mem_cons_of_mem _ ht), if_pos ht]
          · rw [if_neg (by
              intro h
              rcases List.mem_cons.mp h with h | h
              · exact hct h.symm
              · exact ht h), if_neg ht]

/-- C8: per terminal device, findProcesses yields at most one Session;
when at least one surviving raw process has that device, exactly one
Session is produced, namely the one built from the first such process
(its pid, command line and resolved version are retained). -/
theorem c8_dedup_first (agent : String) (lines : List String)
    (resolve : Int → String) (t : String) :
    (findProcesses agent lines resolve).filter (fun s => s.TTY == t) =
      ((((candidates agent lines).filter (fun c => c.tty == t)).head?).map
        (mkSession resolve agent)).toList := by
  rw [findProcesses, findLoop_filter_tty agent resolve t lines [],
    if_neg (List.not_mem_nil t)]
  rfl

end AV
